import Mathlib

/-!
Verification of the administrative code resolution service of
`mcp-insee-entreprises` (files `geo_mapping.py` and `section_mapping.py`).

Python strings are modelled as lists of Unicode codepoints (`List Nat`).
The string methods the source relies on (`str.lower`, `str.upper`,
`str.strip`, `str.isdigit`, the substring operator `in`) are modelled
below for the ASCII and Latin-1 letter ranges, which cover the
repository's datasets and all concrete inputs used here.

Python dictionaries are modelled as association lists in insertion
order: `d[k] = v` keeps the position of an existing key and appends a
new key at the end, exactly as CPython dicts behave; iteration order is
list order; lookup returns the value of the unique (first) matching key.

The reference datasets (CSV files under `data/`) are not part of the
source tree, so every loader and resolver is parameterised by the file's
row contents / the loaded table.
-/

/-- A Python string: the list of its Unicode codepoints. -/
abbrev PyStr := List Nat

/-- Convenience: build a `PyStr` from a Lean string literal. -/
def pystr (s : String) : PyStr := s.data.map Char.toNat

/-- Model of Python's whitespace test used by `str.strip`
(ASCII whitespace, the C1 separators, NEL and NBSP). -/
def pySpace (n : Nat) : Bool :=
  decide (n = 32 ∨ (9 ≤ n ∧ n ≤ 13) ∨ (28 ≤ n ∧ n ≤ 31) ∨ n = 133 ∨ n = 160)

/-- Model of Python's `str.lower` on one codepoint
(ASCII letters, Latin-1 letters, and Ÿ). -/
def lowerChar (n : Nat) : Nat :=
  if (65 ≤ n ∧ n ≤ 90) ∨ (192 ≤ n ∧ n ≤ 222 ∧ n ≠ 215) then n + 32
  else if n = 376 then 255
  else n

/-- The one-to-one part of Python's `str.upper` on a codepoint
(ASCII letters, Latin-1 letters with a single-codepoint uppercase, and ÿ). -/
def upperChar (n : Nat) : Nat :=
  if (97 ≤ n ∧ n ≤ 122) ∨ (224 ≤ n ∧ n ≤ 254 ∧ n ≠ 247) then n - 32
  else if n = 255 then 376
  else n

/-- Model of Python's `str.upper` on one codepoint: ß (223) upper-cases to
the two-codepoint "SS" and µ (181) to the Greek Μ (924); every other
codepoint maps one-to-one through `upperChar`. -/
def upperCharM (n : Nat) : List Nat :=
  if n = 223 then [83, 83]
  else if n = 181 then [924]
  else [upperChar n]

/-- Python `s.lower()`. -/
def pyLower (s : PyStr) : PyStr := s.map lowerChar

/-- Python `s.upper()` (concatenation of the per-codepoint uppercase,
which is not length-preserving because of ß). -/
def pyUpper (s : PyStr) : PyStr := s.flatMap upperCharM

/-- Python `s.strip()`: drop leading and trailing whitespace. -/
def pyStrip (s : PyStr) : PyStr :=
  ((s.dropWhile pySpace).reverse.dropWhile pySpace).reverse

/-- The normalisation every forward resolver applies: `s.lower().strip()`. -/
def pyNorm (s : PyStr) : PyStr := pyStrip (pyLower s)

/-- Python `s.isdigit()`, modelled for the ASCII digits: non-empty and all
digits. (Python also accepts further Unicode digit codepoints, such as the
Latin-1 superscripts; the département codes this test guards are ASCII.) -/
def pyIsDigit (s : PyStr) : Bool :=
  !s.isEmpty && s.all (fun n => 48 ≤ n && n ≤ 57)

/-- Python truthiness of an `Optional[str]` value:
`None` and the empty string are falsy. -/
def optTruthy : Option PyStr → Bool
  | none => false
  | some s => !s.isEmpty

/-- Python's substring operator `a in b` (contiguous subsequence). -/
def isSubOf (a : PyStr) : PyStr → Bool
  | [] => a.isEmpty
  | c :: t => a.isPrefixOf (c :: t) || isSubOf a t

/-- The bidirectional containment test of the partial-match loops:
`name_lower in name or name in name_lower`. -/
def biContains (input k : PyStr) : Bool :=
  isSubOf input k || isSubOf k input

/-- Python `d[k] = v` on an insertion-ordered dictionary:
replace in place if the key exists, else append at the end. -/
def dictInsert (k : PyStr) (v : α) : List (PyStr × α) → List (PyStr × α)
  | [] => [(k, v)]
  | e :: rest => if e.1 == k then (k, v) :: rest else e :: dictInsert k v rest

/-- The commune loader's `name_to_codes[name_lower].append(pair)`
(creating an empty list first when the key is absent). -/
def dictAppend (k : PyStr) (pair : PyStr × PyStr) :
    List (PyStr × List (PyStr × PyStr)) → List (PyStr × List (PyStr × PyStr))
  | [] => [(k, [pair])]
  | e :: rest =>
    if e.1 == k then (e.1, e.2 ++ [pair]) :: rest else e :: dictAppend k pair rest

-- ### Basic facts about the string model

theorem lowerChar_lowerChar (n : Nat) : lowerChar (lowerChar n) = lowerChar n := by
  simp only [lowerChar]
  split_ifs <;> omega

theorem lowerChar_upperChar (n : Nat) : lowerChar (upperChar n) = lowerChar n := by
  simp only [lowerChar, upperChar]
  split_ifs <;> omega

theorem pySpace_lowerChar (n : Nat) : pySpace (lowerChar n) = pySpace n := by
  simp only [pySpace, lowerChar, decide_eq_decide]
  split_ifs <;> omega

theorem pySpace_upperChar (n : Nat) : pySpace (upperChar n) = pySpace n := by
  simp only [pySpace, upperChar, decide_eq_decide]
  split_ifs <;> omega

theorem pyLower_pyLower (s : PyStr) : pyLower (pyLower s) = pyLower s := by
  simp only [pyLower, List.map_map]
  exact List.map_congr_left (fun n _ => lowerChar_lowerChar n)

/-- On strings without ß and µ, Python's upper-casing is the plain
codepoint-wise letter mapping. -/
theorem pyUpper_eq_map (s : PyStr) (h : ∀ c ∈ s, c ≠ 223 ∧ c ≠ 181) :
    pyUpper s = s.map upperChar := by
  induction s with
  | nil => rfl
  | cons c t ih =>
    have hc := h c (List.mem_cons_self c t)
    have hm : upperCharM c = [upperChar c] := by
      simp only [upperCharM, if_neg hc.1, if_neg hc.2]
    show List.flatMap (c :: t) upperCharM = List.map upperChar (c :: t)
    rw [List.flatMap_cons, hm, List.map_cons, List.singleton_append]
    congr 1
    exact ih (fun x hx => h x (List.mem_cons_of_mem _ hx))

theorem pyLower_pyUpper_of_simple (s : PyStr) (h : ∀ c ∈ s, c ≠ 223 ∧ c ≠ 181) :
    pyLower (pyUpper s) = pyLower s := by
  rw [pyUpper_eq_map s h]
  simp only [pyLower, List.map_map]
  exact List.map_congr_left (fun n _ => lowerChar_upperChar n)

theorem dropWhile_pySpace_pyLower (s : PyStr) :
    (pyLower s).dropWhile pySpace = pyLower (s.dropWhile pySpace) := by
  simp only [pyLower]
  rw [List.dropWhile_map]
  have hp : (pySpace ∘ lowerChar) = pySpace := by
    funext n; simp [Function.comp, pySpace_lowerChar]
  rw [hp]

theorem pyStrip_pyLower (s : PyStr) : pyStrip (pyLower s) = pyLower (pyStrip s) := by
  simp only [pyStrip]
  rw [dropWhile_pySpace_pyLower]
  simp only [pyLower]
  rw [← List.map_reverse, List.dropWhile_map]
  have : (pySpace ∘ lowerChar) = pySpace := by
    funext n; simp [Function.comp, pySpace_lowerChar]
  rw [this, List.map_reverse]

theorem dropWhile_ne_nil_head (p : α → Bool) (l : List α) (h : l.dropWhile p ≠ []) :
    ∃ a t, l.dropWhile p = a :: t ∧ p a = false := by
  induction l with
  | nil => simp at h
  | cons x xs ih =>
    rw [List.dropWhile_cons] at h ⊢
    by_cases hx : p x = true
    · simp only [hx, if_true] at h ⊢
      exact ih h
    · simp only [hx, if_false]
      exact ⟨x, xs, rfl, Bool.eq_false_iff.mpr hx⟩

theorem dropWhile_of_head_false (p : α → Bool) (a : α) (t : List α) (ha : p a = false) :
    (a :: t).dropWhile p = a :: t := by
  rw [List.dropWhile_cons, ha]
  simp

theorem dropWhile_getLast? (p : α → Bool) (l : List α) (h : l.dropWhile p ≠ []) :
    (l.dropWhile p).getLast? = l.getLast? := by
  induction l with
  | nil => simp at h
  | cons x xs ih =>
    rw [List.dropWhile_cons] at h ⊢
    by_cases hx : p x = true
    · rw [if_pos hx] at h ⊢
      rw [ih h]
      have hxs : xs ≠ [] := by
        intro he
        rw [he] at h
        simp at h
      match xs, hxs with
      | y :: ys, _ => exact (List.getLast?_cons_cons).symm
    · rw [if_neg hx]

theorem pyStrip_idem (s : PyStr) : pyStrip (pyStrip s) = pyStrip s := by
  by_cases hm : pyStrip s = []
  · rw [hm]; rfl
  · set r1 := s.dropWhile pySpace with hr1
    set r2 := r1.reverse.dropWhile pySpace with hr2
    have hms : pyStrip s = r2.reverse := rfl
    have hr2ne : r2 ≠ [] := by
      intro he
      apply hm
      rw [hms, he]; rfl
    have hr1rne : r1.reverse ≠ [] := by
      intro he
      rw [hr2, he] at hr2ne
      simp at hr2ne
    have hr1ne : r1 ≠ [] := fun he => hr1rne (by rw [he]; rfl)
    -- the head of the fully stripped string is not whitespace
    obtain ⟨a, t, hat, hpa⟩ := dropWhile_ne_nil_head pySpace r1.reverse hr2ne
    -- the last of the fully stripped string is not whitespace
    have hs' : List.dropWhile pySpace s ≠ [] := by rw [← hr1]; exact hr1ne
    obtain ⟨b, u, hbu, hpb⟩ := dropWhile_ne_nil_head pySpace s hs'
    have hfront : r2.reverse.dropWhile pySpace = r2.reverse := by
      have hhead : r2.reverse.head? = r1.reverse.getLast? := by
        rw [List.head?_reverse]
        exact dropWhile_getLast? pySpace r1.reverse hr2ne
      rw [List.getLast?_reverse] at hhead
      have hr1head : r1.head? = some b := by rw [hr1, hbu]; rfl
      rw [hr1head] at hhead
      match r2r : r2.reverse, hhead with
      | c :: cs, hh =>
        have : c = b := by simpa using hh
        rw [this]
        exact dropWhile_of_head_false pySpace b cs hpb
    have hback : r2.dropWhile pySpace = r2 := by
      rw [hr2, hat]
      exact dropWhile_of_head_false pySpace a t hpa
    show ((r2.reverse.dropWhile pySpace).reverse.dropWhile pySpace).reverse = r2.reverse
    rw [hfront, List.reverse_reverse, hback]

theorem pyNorm_pyStrip (s : PyStr) : pyNorm (pyStrip s) = pyNorm s := by
  simp only [pyNorm]
  rw [pyStrip_pyLower, pyStrip_idem, ← pyStrip_pyLower]

theorem pyNorm_pyLower (s : PyStr) : pyNorm (pyLower s) = pyNorm s := by
  simp only [pyNorm]
  rw [pyLower_pyLower]

theorem pyNorm_pyUpper_of_simple (s : PyStr) (h : ∀ c ∈ s, c ≠ 223 ∧ c ≠ 181) :
    pyNorm (pyUpper s) = pyNorm s := by
  simp only [pyNorm]
  rw [pyLower_pyUpper_of_simple s h]

theorem pyStrip_pyStrip_eq (s : PyStr) : pyStrip (pyLower (pyStrip s)) = pyLower (pyStrip s) := by
  rw [pyStrip_pyLower, pyStrip_idem]

theorem isSubOf_nil_left (l : PyStr) : isSubOf [] l = true := by
  induction l with
  | nil => rfl
  | cons c t ih =>
    simp only [isSubOf, List.isPrefixOf]
    simp

example : pyNorm (pystr "  GRENOBLE ") = pystr "grenoble" := by decide
example : pyStrip (pystr "  ") = [] := by decide
example : pyIsDigit (pystr "38") = true := by decide
example : pyIsDigit (pystr "2A") = false := by decide
example : isSubOf (pystr "rhone") (pystr "rhone-alpes") = true := by decide
example : isSubOf (pystr "x") (pystr "q") = false := by decide

-- ### Embedding of the source functions

/-- Forward index type: normalized name → code. -/
abbrev Tbl := List (PyStr × PyStr)

/-- Commune forward index type: normalized name → list of `(code, dept_code)`. -/
abbrev CTbl := List (PyStr × List (PyStr × PyStr))

/-- Body of the loading loop shared by `_load_regions`, `_load_departements`
and `_load_sections`: for a data row `(code, name)` (both columns stripped),
`code_to_name[code] = name` and `name_to_code[name.lower()] = code`. -/
def loadStep (acc : Tbl × Tbl) (row : PyStr × PyStr) : Tbl × Tbl :=
  (dictInsert (pyLower (pyStrip row.2)) (pyStrip row.1) acc.1,
   dictInsert (pyStrip row.1) (pyStrip row.2) acc.2)

/-- The loading loop itself. Returns `(name_to_code, code_to_name)`. -/
def loadPairs (rows : List (PyStr × PyStr)) : Tbl × Tbl :=
  rows.foldl loadStep ([], [])

/-- `_load_regions` (geo_mapping.py), parsing part, parameterised by the
rows `(REG, NCCENR)` of `v_region_2025.csv`. -/
def _load_regions (rows : List (PyStr × PyStr)) : Tbl × Tbl := loadPairs rows

/-- `_load_departements` (geo_mapping.py), rows `(DEP, NCCENR)`. -/
def _load_departements (rows : List (PyStr × PyStr)) : Tbl × Tbl := loadPairs rows

/-- `_load_sections` (section_mapping.py), rows `(Code, Libellé)`. -/
def _load_sections (rows : List (PyStr × PyStr)) : Tbl × Tbl := loadPairs rows

/-- One row of `v_commune_2025.csv` (the columns the loader reads). -/
structure CommuneRow where
  typecom : PyStr
  com : PyStr
  nccenr : PyStr
  dep : PyStr

/-- Body of the loading loop of `_load_communes` (geo_mapping.py): keeps
only rows with `TYPECOM == "COM"`; stores `code → name` in the reverse dict
and appends `(code, dept_code)` to the forward dict entry of `name.lower()`
(all columns stripped). -/
def communeStep (acc : CTbl × Tbl) (row : CommuneRow) : CTbl × Tbl :=
  if row.typecom == pystr "COM" then
    (dictAppend (pyLower (pyStrip row.nccenr)) (pyStrip row.com, pyStrip row.dep) acc.1,
     dictInsert (pyStrip row.com) (pyStrip row.nccenr) acc.2)
  else acc

/-- `_load_communes`, parsing part. Returns `(name_to_codes, code_to_name)`. -/
def _load_communes (rows : List CommuneRow) : CTbl × Tbl :=
  rows.foldl communeStep ([], [])

/-- `get_region_code` (geo_mapping.py lines 130–152): exact match on the
lowered, stripped name, then a first-match bidirectional substring scan. -/
def get_region_code (name_to_code : Tbl) (region_name : PyStr) : Option PyStr :=
  let name_lower := pyStrip (pyLower region_name)
  match List.lookup name_lower name_to_code with
  | some code => some code
  | none => (name_to_code.find? (fun e => biContains name_lower e.1)).map (fun e => e.2)

/-- `get_region_name` (geo_mapping.py lines 155–166). -/
def get_region_name (code_to_name : Tbl) (region_code : PyStr) : Option PyStr :=
  List.lookup (pyStrip region_code) code_to_name

/-- `get_departement_code` (geo_mapping.py lines 169–191). -/
def get_departement_code (name_to_code : Tbl) (dept_name : PyStr) : Option PyStr :=
  let name_lower := pyStrip (pyLower dept_name)
  match List.lookup name_lower name_to_code with
  | some code => some code
  | none => (name_to_code.find? (fun e => biContains name_lower e.1)).map (fun e => e.2)

/-- `get_departement_name` (geo_mapping.py lines 194–205). -/
def get_departement_name (code_to_name : Tbl) (dept_code : PyStr) : Option PyStr :=
  List.lookup (pyStrip dept_code) code_to_name

/-- `get_section_code` (section_mapping.py lines 46–68). -/
def get_section_code (label_to_code : Tbl) (section_label : PyStr) : Option PyStr :=
  let label_lower := pyStrip (pyLower section_label)
  match List.lookup label_lower label_to_code with
  | some code => some code
  | none => (label_to_code.find? (fun e => biContains label_lower e.1)).map (fun e => e.2)

/-- `get_section_label` (section_mapping.py lines 71–82): the code is
upper-cased then stripped before the exact reverse lookup. -/
def get_section_label (code_to_label : Tbl) (section_code : PyStr) : Option PyStr :=
  List.lookup (pyStrip (pyUpper section_code)) code_to_label

/-- `get_commune_code` (geo_mapping.py lines 208–263).
`departement = none` models the Python default `None`. -/
def get_commune_code (name_to_codes : CTbl) (depts : Tbl) (commune_name : PyStr)
    (departement : Option PyStr) : Option PyStr :=
  let name_lower := pyStrip (pyLower commune_name)
  let ocodes : Option (List (PyStr × PyStr)) :=
    match List.lookup name_lower name_to_codes with
    | some l => some l
    | none =>
      let found :=
        (name_to_codes.filter (fun e => biContains name_lower e.1)).flatMap (fun e => e.2)
      if found.isEmpty then none else some found
  match ocodes with
  | none => none
  | some codes_list =>
    if !optTruthy departement && decide (codes_list.length > 1) then none
    else if optTruthy departement then
      let d0 := pyStrip (departement.getD [])
      let odc : Option PyStr :=
        if pyIsDigit d0 || d0 == pystr "2A" || d0 == pystr "2B" then some d0
        else
          match get_departement_code depts (departement.getD []) with
          | some dc => if dc.isEmpty then none else some dc
          | none => none
      match odc with
      | none => none
      | some dc => (codes_list.find? (fun cd => cd.2 == dc)).map (fun cd => cd.1)
    else if codes_list.length == 1 then codes_list.head?.map (fun cd => cd.1)
    else none

/-- `get_commune_name` (geo_mapping.py lines 266–277). -/
def get_commune_name (code_to_name : Tbl) (commune_code : PyStr) : Option PyStr :=
  List.lookup (pyStrip commune_code) code_to_name

/-- `search_communes` (geo_mapping.py lines 302–341): résult rows are
`(code, name, departement)` triples. -/
def search_communes (name_to_codes : CTbl) (code_to_name depts : Tbl)
    (name_pattern : PyStr) (departement : Option PyStr) :
    List (PyStr × PyStr × PyStr) :=
  let pattern_lower := pyStrip (pyLower name_pattern)
  let ofilt : Option (Option PyStr) :=
    if optTruthy departement then
      let d0 := pyStrip (departement.getD [])
      if pyIsDigit d0 || d0 == pystr "2A" || d0 == pystr "2B" then some (some d0)
      else
        match get_departement_code depts (departement.getD []) with
        | some dc => if dc.isEmpty then none else some (some dc)
        | none => none
    else some none
  match ofilt with
  | none => []
  | some filt =>
    name_to_codes.flatMap (fun e =>
      if isSubOf pattern_lower e.1 then
        e.2.filterMap (fun cd =>
          if optTruthy filt && !(cd.2 == filt.getD []) then none
          else some (cd.1, ((List.lookup cd.1 code_to_name).getD []), cd.2))
      else [])

/-- The module-level cache of `_load_regions`: the two globals
`_REGION_CACHE` / `_REGION_REVERSE_CACHE` passed and returned explicitly;
the row argument stands for whatever the CSV file holds at call time. -/
def _load_regions_cached (c1 c2 : Option Tbl) (rows : List (PyStr × PyStr)) :
    (Tbl × Tbl) × (Option Tbl × Option Tbl) :=
  match c1, c2 with
  | some a, some b => ((a, b), (some a, some b))
  | _, _ =>
    let t := _load_regions rows
    (t, (some t.1, some t.2))

/-- The module-level cache of `_load_communes` (`_COMMUNE_CACHE` /
`_COMMUNE_REVERSE_CACHE`), same shape. -/
def _load_communes_cached (c1 : Option CTbl) (c2 : Option Tbl) (rows : List CommuneRow) :
    (CTbl × Tbl) × (Option CTbl × Option Tbl) :=
  match c1, c2 with
  | some a, some b => ((a, b), (some a, some b))
  | _, _ =>
    let t := _load_communes rows
    (t, (some t.1, some t.2))

-- ### Specification-side definitions (stated from the spec's words)

/-- §4.2 of the spec, stated independently of the loop: exact hit on the
normalized input, otherwise the code of the *first* key (head of the filtered
index) matched by the bidirectional containment test, otherwise NotFound. -/
def forwardResolveSpec (tbl : Tbl) (input : PyStr) : Option PyStr :=
  match List.lookup (pyNorm input) tbl with
  | some code => some code
  | none =>
    ((tbl.filter (fun e => biContains (pyNorm input) e.1)).head?).map (fun e => e.2)

/-- §4.4 step 5: resolution of a département hint. A hint that strips to a
bare code (all digits, or literally "2A"/"2B") is used as-is; anything else
goes through the département resolver, whose falsy results fail the hint. -/
def resolve_dept_hint (depts : Tbl) (hint : PyStr) : Option PyStr :=
  let d0 := pyStrip hint
  if pyIsDigit d0 || d0 == pystr "2A" || d0 == pystr "2B" then some d0
  else
    match get_departement_code depts hint with
    | some dc => if dc.isEmpty then none else some dc
    | none => none

/-- The candidate list `codes_list` built by `get_commune_code`: the exact
entry of the normalized name, or the accumulation of the pairs of every key
matched by the bidirectional containment test. -/
def commune_candidates (name_to_codes : CTbl) (commune_name : PyStr) :
    List (PyStr × PyStr) :=
  match List.lookup (pyNorm commune_name) name_to_codes with
  | some l => l
  | none =>
    (name_to_codes.filter (fun e => biContains (pyNorm commune_name) e.1)).flatMap
      (fun e => e.2)

/-- Steps 3–6 of the commune disambiguation rules (§4.4), applied to an
already-computed candidate list. -/
def commune_finish (depts : Tbl) (departement : Option PyStr)
    (codes_list : List (PyStr × PyStr)) : Option PyStr :=
  if codes_list.isEmpty then none
  else if !optTruthy departement && decide (codes_list.length > 1) then none
  else if optTruthy departement then
    match resolve_dept_hint depts (departement.getD []) with
    | none => none
    | some dc => (codes_list.find? (fun cd => cd.2 == dc)).map (fun cd => cd.1)
  else if codes_list.length == 1 then codes_list.head?.map (fun cd => cd.1)
  else none

/-- The département filter of the search operation, resolved as in §4.4
step 5: `none` aborts the search, `some none` means no filter, and
`some (some f)` filters to the département code `f`. -/
def searchFilterSpec (depts : Tbl) (departement : Option PyStr) : Option (Option PyStr) :=
  match departement with
  | none => some none
  | some d =>
    if d.isEmpty then some none
    else
      match resolve_dept_hint depts d with
      | none => none
      | some f => some (some f)

/-- §4.5 stated from the spec's words: every candidate whose normalized name
contains the pattern (unidirectional containment only), filtered by the
optionally resolved département, in index iteration order. -/
def searchCommunesSpec (name_to_codes : CTbl) (code_to_name depts : Tbl)
    (pattern : PyStr) (departement : Option PyStr) : List (PyStr × PyStr × PyStr) :=
  let pat := pyNorm pattern
  match searchFilterSpec depts departement with
  | none => []
  | some filt =>
    name_to_codes.flatMap (fun e =>
      if isSubOf pat e.1 then
        (e.2.filter (fun cd => match filt with | none => true | some f => cd.2 == f)).map
          (fun cd => (cd.1, ((List.lookup cd.1 code_to_name).getD []), cd.2))
      else [])

-- ### Structural lemmas connecting the embedding with the spec forms

theorem find?_eq_head?_filter (p : α → Bool) (l : List α) :
    l.find? p = (l.filter p).head? := by
  induction l with
  | nil => rfl
  | cons x xs ih =>
    cases hx : p x with
    | true =>
      rw [List.find?_cons, List.filter_cons, hx]
      simp
    | false =>
      rw [List.find?_cons, List.filter_cons, hx]
      simp only [Bool.false_eq_true, if_false]
      exact ih

theorem get_region_code_eq_spec (tbl : Tbl) (input : PyStr) :
    get_region_code tbl input = forwardResolveSpec tbl input := by
  simp only [get_region_code, forwardResolveSpec, pyNorm]
  rw [find?_eq_head?_filter]

theorem get_departement_code_eq_spec (tbl : Tbl) (input : PyStr) :
    get_departement_code tbl input = forwardResolveSpec tbl input := by
  simp only [get_departement_code, forwardResolveSpec, pyNorm]
  rw [find?_eq_head?_filter]

theorem get_section_code_eq_spec (tbl : Tbl) (input : PyStr) :
    get_section_code tbl input = forwardResolveSpec tbl input := by
  simp only [get_section_code, forwardResolveSpec, pyNorm]
  rw [find?_eq_head?_filter]

theorem get_commune_code_eq_finish (name_to_codes : CTbl) (depts : Tbl)
    (commune_name : PyStr) (departement : Option PyStr) :
    get_commune_code name_to_codes depts commune_name departement =
      commune_finish depts departement (commune_candidates name_to_codes commune_name) := by
  cases hl : List.lookup (pyStrip (pyLower commune_name)) name_to_codes with
  | none =>
    by_cases he :
        ((name_to_codes.filter
          (fun e => biContains (pyStrip (pyLower commune_name)) e.1)).flatMap
            (fun e => e.2)).isEmpty
    · simp only [get_commune_code, commune_finish, commune_candidates, pyNorm, hl,
        if_pos he]
    · simp only [get_commune_code, commune_finish, commune_candidates,
        resolve_dept_hint, pyNorm, hl, if_neg he]
  | some l =>
    by_cases he : l.isEmpty
    · rw [List.isEmpty_iff.mp he] at hl
      simp only [get_commune_code, commune_finish, commune_candidates,
        resolve_dept_hint, pyNorm, hl, List.isEmpty_nil, if_pos]
      cases hdep : optTruthy departement with
      | false => simp [hdep]
      | true =>
        simp [hdep]
        split <;> rfl
    · simp only [get_commune_code, commune_finish, commune_candidates,
        resolve_dept_hint, pyNorm, hl, if_neg he]

example :
    get_commune_code [(pystr "lyon", [(pystr "69123", pystr "69")])] []
      (pystr " LYON ") none = some (pystr "69123") := by decide
example :
    get_commune_code
      [(pystr "saint-martin", [(pystr "32410", pystr "32"), (pystr "54475", pystr "54")])] []
      (pystr "Saint-Martin") none = none := by decide
example :
    get_commune_code
      [(pystr "saint-martin", [(pystr "32410", pystr "32"), (pystr "54475", pystr "54")])] []
      (pystr "Saint-Martin") (some (pystr "54")) = some (pystr "54475") := by decide
example :
    get_region_code [(pystr "auvergne-rhone-alpes", pystr "84")] (pystr "rhone") =
      some (pystr "84") := by decide

theorem pyNorm_def (s : PyStr) : pyStrip (pyLower s) = pyNorm s := rfl

theorem get_region_code_norm_congr (tbl : Tbl) {a b : PyStr} (h : pyNorm a = pyNorm b) :
    get_region_code tbl a = get_region_code tbl b := by
  simp only [get_region_code, pyNorm_def, h]

theorem get_departement_code_norm_congr (tbl : Tbl) {a b : PyStr}
    (h : pyNorm a = pyNorm b) :
    get_departement_code tbl a = get_departement_code tbl b := by
  simp only [get_departement_code, pyNorm_def, h]

theorem get_section_code_norm_congr (tbl : Tbl) {a b : PyStr} (h : pyNorm a = pyNorm b) :
    get_section_code tbl a = get_section_code tbl b := by
  simp only [get_section_code, pyNorm_def, h]

theorem get_commune_code_norm_congr (communes : CTbl) (depts : Tbl) (dep : Option PyStr)
    {a b : PyStr} (h : pyNorm a = pyNorm b) :
    get_commune_code communes depts a dep = get_commune_code communes depts b dep := by
  simp only [get_commune_code, pyNorm_def, h]

/-- First-match lookup characterised positionally: a successful exact lookup
is witnessed by a split of the table at the first entry carrying the key. -/
theorem lookup_eq_some_iff (tbl : Tbl) (k v : PyStr) :
    List.lookup k tbl = some v ↔
      ∃ l1 l2, tbl = l1 ++ (k, v) :: l2 ∧ ∀ e ∈ l1, e.1 ≠ k := by
  induction tbl with
  | nil => simp
  | cons e rest ih =>
    obtain ⟨ek, ev⟩ := e
    rw [List.lookup_cons]
    by_cases hk : k = ek
    · subst hk
      simp only [beq_self_eq_true]
      constructor
      · intro hv
        have hev : ev = v := by simpa using hv
        subst hev
        exact ⟨[], rest, rfl, by simp⟩
      · rintro ⟨l1, l2, heq, hfresh⟩
        cases l1 with
        | nil =>
          simp only [List.nil_append, List.cons.injEq] at heq
          have : ev = v := (Prod.mk.injEq _ _ _ _ ▸ heq.1).2
          rw [this]
        | cons f fs =>
          simp only [List.cons_append, List.cons.injEq] at heq
          have hf := hfresh f (by simp)
          rw [← heq.1] at hf
          simp at hf
    · have hbeq : (k == ek) = false := beq_eq_false_iff_ne.mpr hk
      rw [hbeq]
      rw [ih]
      constructor
      · rintro ⟨l1, l2, heq, hfresh⟩
        refine ⟨(ek, ev) :: l1, l2, by rw [heq]; rfl, ?_⟩
        intro f hf
        rcases List.mem_cons.mp hf with hf1 | hf2
        · rw [hf1]
          exact fun hc => hk hc.symm
        · exact hfresh f hf2
      · rintro ⟨l1, l2, heq, hfresh⟩
        cases l1 with
        | nil =>
          simp only [List.nil_append, List.cons.injEq] at heq
          exact absurd (congrArg Prod.fst heq.1).symm hk
        | cons f fs =>
          simp only [List.cons_append, List.cons.injEq] at heq
          exact ⟨fs, l2, heq.2, fun e he => hfresh e (List.mem_cons_of_mem _ he)⟩

/-- C4: region, département and section forward resolution return the exact
hit immediately, otherwise the code of the first key (in index iteration
order) passing the bidirectional substring test, otherwise NotFound. -/
theorem C4_forward_first_match :
    ∀ (tbl : Tbl) (input : PyStr),
      get_region_code tbl input = forwardResolveSpec tbl input ∧
      get_departement_code tbl input = forwardResolveSpec tbl input ∧
      get_section_code tbl input = forwardResolveSpec tbl input :=
  fun tbl input =>
    ⟨get_region_code_eq_spec tbl input, get_departement_code_eq_spec tbl input,
      get_section_code_eq_spec tbl input⟩

/-- C7 counterexample: forward resolution is not invariant under
upper-casing: "ß" upper-cases to "SS", which lower-cases back to "ss" and
substring-matches the key "essonne", while "ß" itself matches nothing. -/
theorem C7_uppercase_counterexample :
    get_departement_code [(pystr "essonne", pystr "91")] (pyUpper (pystr "ß")) =
      some (pystr "91") ∧
    get_departement_code [(pystr "essonne", pystr "91")] (pystr "ß") = none := by
  decide

/-- C7 (amended): forward resolution is invariant under trimming and under
lower-casing of the input unconditionally, for the region, département,
section and commune resolvers alike; it is additionally invariant under
upper-casing whenever the input contains neither ß (U+00DF) nor µ (U+00B5),
the two Latin-1 letters whose Python uppercase is not the one-to-one letter
mapping. -/
theorem C7_case_whitespace_insensitive :
    ∀ (tbl : Tbl) (communes : CTbl) (depts : Tbl) (dep : Option PyStr) (input : PyStr),
      (get_region_code tbl (pyStrip input) = get_region_code tbl input ∧
        get_departement_code tbl (pyStrip input) = get_departement_code tbl input ∧
        get_section_code tbl (pyStrip input) = get_section_code tbl input ∧
        get_commune_code communes depts (pyStrip input) dep =
          get_commune_code communes depts input dep) ∧
      (get_region_code tbl (pyLower input) = get_region_code tbl input ∧
        get_departement_code tbl (pyLower input) = get_departement_code tbl input ∧
        get_section_code tbl (pyLower input) = get_section_code tbl input ∧
        get_commune_code communes depts (pyLower input) dep =
          get_commune_code communes depts input dep) ∧
      ((∀ c ∈ input, c ≠ 223 ∧ c ≠ 181) →
        get_region_code tbl (pyUpper input) = get_region_code tbl input ∧
        get_departement_code tbl (pyUpper input) = get_departement_code tbl input ∧
        get_section_code tbl (pyUpper input) = get_section_code tbl input ∧
        get_commune_code communes depts (pyUpper input) dep =
          get_commune_code communes depts input dep) :=
  fun tbl communes depts dep input =>
    ⟨⟨get_region_code_norm_congr tbl (pyNorm_pyStrip input),
        get_departement_code_norm_congr tbl (pyNorm_pyStrip input),
        get_section_code_norm_congr tbl (pyNorm_pyStrip input),
        get_commune_code_norm_congr communes depts dep (pyNorm_pyStrip input)⟩,
      ⟨get_region_code_norm_congr tbl (pyNorm_pyLower input),
        get_departement_code_norm_congr tbl (pyNorm_pyLower input),
        get_section_code_norm_congr tbl (pyNorm_pyLower input),
        get_commune_code_norm_congr communes depts dep (pyNorm_pyLower input)⟩,
      fun h =>
        ⟨get_region_code_norm_congr tbl (pyNorm_pyUpper_of_simple input h),
          get_departement_code_norm_congr tbl (pyNorm_pyUpper_of_simple input h),
          get_section_code_norm_congr tbl (pyNorm_pyUpper_of_simple input h),
          get_commune_code_norm_congr communes depts dep
            (pyNorm_pyUpper_of_simple input h)⟩⟩

/-- Witness for the amended C7: upper-case invariance at a concrete ß-free
input. -/
theorem C7_case_whitespace_insensitive_witness :
    get_region_code [(pystr "grenoble", pystr "84")] (pyUpper (pystr " Grenoble ")) =
      get_region_code [(pystr "grenoble", pystr "84")] (pystr " Grenoble ") :=
  ((C7_case_whitespace_insensitive [(pystr "grenoble", pystr "84")] [] [] none
      (pystr " Grenoble ")).2.2 (by decide)).1

/-- C9: reverse resolution is an exact first-match lookup of the trimmed
code (upper-cased first for section codes): it succeeds exactly when the
table splits at a first entry carrying that key — no substring fallback. -/
theorem C9_reverse_exact_lookup :
    ∀ (tbl : Tbl) (code name : PyStr),
      (get_region_name tbl code = some name ↔
        ∃ l1 l2, tbl = l1 ++ (pyStrip code, name) :: l2 ∧ ∀ e ∈ l1, e.1 ≠ pyStrip code) ∧
      (get_departement_name tbl code = some name ↔
        ∃ l1 l2, tbl = l1 ++ (pyStrip code, name) :: l2 ∧ ∀ e ∈ l1, e.1 ≠ pyStrip code) ∧
      (get_commune_name tbl code = some name ↔
        ∃ l1 l2, tbl = l1 ++ (pyStrip code, name) :: l2 ∧ ∀ e ∈ l1, e.1 ≠ pyStrip code) ∧
      (get_section_label tbl code = some name ↔
        ∃ l1 l2, tbl = l1 ++ (pyStrip (pyUpper code), name) :: l2 ∧
          ∀ e ∈ l1, e.1 ≠ pyStrip (pyUpper code)) :=
  fun tbl code name =>
    ⟨lookup_eq_some_iff tbl (pyStrip code) name,
      lookup_eq_some_iff tbl (pyStrip code) name,
      lookup_eq_some_iff tbl (pyStrip code) name,
      lookup_eq_some_iff tbl (pyStrip (pyUpper code)) name⟩

theorem biContains_nil (k : PyStr) : biContains [] k = true := by
  simp [biContains, isSubOf_nil_left]

/-- C10: an input that normalizes to the empty string never yields NotFound
on a non-empty table — the empty string passes the substring test against
every key, so (absent an exact empty key) the fallback returns the code of
the first key in index iteration order. -/
theorem C10_blank_input_matches_first :
    ∀ (tbl : Tbl) (input : PyStr), pyNorm input = [] → tbl ≠ [] →
      ((get_region_code tbl input).isSome ∧ (get_departement_code tbl input).isSome ∧
        (get_section_code tbl input).isSome) ∧
      (List.lookup ([] : PyStr) tbl = none →
        get_region_code tbl input = tbl.head?.map (fun e => e.2) ∧
        get_departement_code tbl input = tbl.head?.map (fun e => e.2) ∧
        get_section_code tbl input = tbl.head?.map (fun e => e.2)) := by
  intro tbl input hn hne
  have hfilter : tbl.filter (fun e => biContains (pyNorm input) e.1) = tbl := by
    rw [hn]
    exact List.filter_eq_self.mpr (fun e _ => biContains_nil e.1)
  have hspec : forwardResolveSpec tbl input =
      match List.lookup (pyNorm input) tbl with
      | some code => some code
      | none => tbl.head?.map (fun e => e.2) := by
    simp only [forwardResolveSpec, hfilter]
  constructor
  · have hcore : (forwardResolveSpec tbl input).isSome := by
      rw [hspec]
      cases hlk : List.lookup (pyNorm input) tbl with
      | some c => simp
      | none =>
        obtain ⟨e, rest, htbl⟩ := List.exists_cons_of_ne_nil hne
        rw [htbl]
        simp
    exact ⟨by rw [get_region_code_eq_spec]; exact hcore,
      by rw [get_departement_code_eq_spec]; exact hcore,
      by rw [get_section_code_eq_spec]; exact hcore⟩
  · intro hnolk
    have hlk : List.lookup (pyNorm input) tbl = none := by rw [hn]; exact hnolk
    have hval : forwardResolveSpec tbl input = tbl.head?.map (fun e => e.2) := by
      rw [hspec, hlk]
    exact ⟨by rw [get_region_code_eq_spec, hval],
      by rw [get_departement_code_eq_spec, hval],
      by rw [get_section_code_eq_spec, hval]⟩

/-- Witness for C10: a whitespace-only input on a concrete one-entry table
resolves to that entry's code. -/
theorem C10_blank_input_matches_first_witness :
    get_region_code [(pystr "foo", pystr "11")] (pystr "  ") = some (pystr "11") := by
  have h := (C10_blank_input_matches_first [(pystr "foo", pystr "11")] (pystr "  ")
    (by decide) (by decide)).2 (by decide)
  rw [h.1]
  rfl

/-- C2: when the exact key is absent, the commune resolver accumulates the
`(code, deptCode)` pairs of every key passing the bidirectional substring
test — in index iteration order — into one combined candidate list, and the
disambiguation rules are applied to that combined list. -/
theorem C2_commune_accumulates :
    ∀ (communes : CTbl) (depts : Tbl) (name : PyStr) (dep : Option PyStr),
      List.lookup (pyNorm name) communes = none →
      (get_commune_code communes depts name dep =
        commune_finish depts dep
          ((communes.filter (fun e => biContains (pyNorm name) e.1)).flatMap
            (fun e => e.2))) ∧
      (∀ cd, cd ∈ commune_candidates communes name ↔
        ∃ e ∈ communes, biContains (pyNorm name) e.1 = true ∧ cd ∈ e.2) := by
  intro communes depts name dep hl
  have hcand : commune_candidates communes name =
      (communes.filter (fun e => biContains (pyNorm name) e.1)).flatMap (fun e => e.2) := by
    simp only [commune_candidates, hl]
  constructor
  · rw [get_commune_code_eq_finish, hcand]
  · intro cd
    rw [hcand]
    simp only [List.mem_flatMap, List.mem_filter]
    constructor
    · rintro ⟨e, ⟨he, hb⟩, hcd⟩
      exact ⟨e, he, hb, hcd⟩
    · rintro ⟨e, he, hb, hcd⟩
      exact ⟨e, ⟨he, hb⟩, hcd⟩

/-- Witness for C2 at a concrete table: "lyo" has no exact key and resolves
through the accumulated substring candidates. -/
theorem C2_commune_accumulates_witness :
    get_commune_code [(pystr "lyon", [(pystr "69123", pystr "69")])] []
        (pystr "lyo") none =
      commune_finish [] none
        (([(pystr "lyon", [(pystr "69123", pystr "69")])].filter
          (fun e => biContains (pyNorm (pystr "lyo")) e.1)).flatMap (fun e => e.2)) :=
  (C2_commune_accumulates [(pystr "lyon", [(pystr "69123", pystr "69")])] []
    (pystr "lyo") none (by decide)).1

/-- C3: with a non-empty département hint, a hint stripping to a bare code
(all digits or literally "2A"/"2B") is used as-is, any other hint is resolved
through the département resolver first; a failed sub-resolution fails the
whole commune resolution, otherwise the candidate list is filtered to the
resolved code and the first match — or NotFound — is returned. -/
theorem C3_hint_resolution :
    ∀ (communes : CTbl) (depts : Tbl) (name hint : PyStr), hint ≠ [] →
      get_commune_code communes depts name (some hint) =
        match resolve_dept_hint depts hint with
        | none => none
        | some dc =>
          ((commune_candidates communes name).find? (fun cd => cd.2 == dc)).map
            (fun cd => cd.1) := by
  intro communes depts name hint hne
  rw [get_commune_code_eq_finish]
  have htr : optTruthy (some hint) = true := by
    simp [optTruthy, hne]
  by_cases he : (commune_candidates communes name).isEmpty
  · simp only [commune_finish, if_pos he]
    rw [List.isEmpty_iff.mp he]
    cases resolve_dept_hint depts hint <;> simp
  · simp only [commune_finish, if_neg he, htr, Bool.not_true, Bool.false_and,
      Bool.false_eq_true, if_false, if_true, Option.getD_some]

/-- Witness for C3: the two-candidate name "Saint-Martin" with hint "54". -/
theorem C3_hint_resolution_witness :
    get_commune_code
        [(pystr "saint-martin", [(pystr "32410", pystr "32"), (pystr "54475", pystr "54")])]
        [] (pystr "Saint-Martin") (some (pystr "54")) =
      match resolve_dept_hint [] (pystr "54") with
      | none => none
      | some dc =>
        ((commune_candidates
            [(pystr "saint-martin", [(pystr "32410", pystr "32"), (pystr "54475", pystr "54")])]
            (pystr "Saint-Martin")).find? (fun cd => cd.2 == dc)).map (fun cd => cd.1) :=
  C3_hint_resolution
    [(pystr "saint-martin", [(pystr "32410", pystr "32"), (pystr "54475", pystr "54")])]
    [] (pystr "Saint-Martin") (pystr "54") (by decide)

/-- C1 counterexample: with two same-named communes and no hint, the resolver
returns the very same value (`None`) that it returns for a name with no
candidates at all — the ambiguous outcome is not propagated distinctly from
the NotFound outcome. -/
theorem C1_ambiguous_counterexample :
    (commune_candidates
        [(pystr "x", [(pystr "00001", pystr "01"), (pystr "00002", pystr "02")])]
        (pystr "x")).length = 2 ∧
    commune_candidates
        [(pystr "x", [(pystr "00001", pystr "01"), (pystr "00002", pystr "02")])]
        (pystr "q") = [] ∧
    get_commune_code
        [(pystr "x", [(pystr "00001", pystr "01"), (pystr "00002", pystr "02")])] []
        (pystr "x") none =
      get_commune_code
        [(pystr "x", [(pystr "00001", pystr "01"), (pystr "00002", pystr "02")])] []
        (pystr "q") none := by
  decide

/-- C1 amended: with no (truthy) hint, more than one candidate makes
`get_commune_code` return `None` — a code is never silently picked — and an
empty candidate list returns the very same `None`, so the ambiguous and the
not-found outcomes are signalled but not distinguishable by the caller. -/
theorem C1_ambiguous_returns_none :
    ∀ (communes : CTbl) (depts : Tbl) (name : PyStr) (dep : Option PyStr),
      optTruthy dep = false →
      ((commune_candidates communes name).length > 1 →
        get_commune_code communes depts name dep = none) ∧
      (commune_candidates communes name = [] →
        get_commune_code communes depts name dep = none) := by
  intro communes depts name dep hdep
  constructor
  · intro hlen
    rw [get_commune_code_eq_finish]
    have hie : (commune_candidates communes name).isEmpty = false := by
      cases hc : commune_candidates communes name with
      | nil => rw [hc] at hlen; simp at hlen
      | cons a t => rfl
    simp [commune_finish, hie, hdep, hlen]
  · intro hnil
    rw [get_commune_code_eq_finish, hnil]
    simp [commune_finish]

/-- Witness for the amended C1: a concrete two-candidate name with no hint
resolves to `None`. -/
theorem C1_ambiguous_returns_none_witness :
    get_commune_code
        [(pystr "abc", [(pystr "10001", pystr "10"), (pystr "20002", pystr "20")])] []
        (pystr "abc") none = none :=
  (C1_ambiguous_returns_none
    [(pystr "abc", [(pystr "10001", pystr "10"), (pystr "20002", pystr "20")])] []
    (pystr "abc") none (by decide)).1 (by decide)

-- ### Lemmas for the search operation (C6)

theorem filterMap_guard_eq_filter_map (p : β → Bool) (g : β → γ) (l : List β) :
    l.filterMap (fun b => if p b then none else some (g b)) =
      (l.filter (fun b => !p b)).map g := by
  induction l with
  | nil => rfl
  | cons x xs ih =>
    by_cases hx : p x = true
    · simp [List.filterMap_cons, List.filter_cons, hx, ih]
    · simp [List.filterMap_cons, List.filter_cons, hx, ih]

theorem resolve_dept_hint_ne_nil (depts : Tbl) (hint f : PyStr)
    (h : resolve_dept_hint depts hint = some f) : f ≠ [] := by
  intro h0
  subst h0
  simp only [resolve_dept_hint] at h
  by_cases hd : (pyIsDigit (pyStrip hint) || pyStrip hint == pystr "2A" ||
      pyStrip hint == pystr "2B") = true
  · rw [if_pos hd] at h
    have hf : pyStrip hint = [] := by simpa using h
    rw [hf] at hd
    exact absurd hd (by decide)
  · rw [if_neg hd] at h
    cases hdc : get_departement_code depts hint with
    | none => simp [hdc] at h
    | some dc =>
      simp only [hdc] at h
      by_cases hie : dc.isEmpty
      · simp [hie] at h
      · simp [hie] at h
        rw [h] at hie
        exact hie rfl

theorem searchFilterSpec_some_some (depts : Tbl) (dep : Option PyStr) (f : PyStr)
    (h : searchFilterSpec depts dep = some (some f)) : f ≠ [] := by
  cases dep with
  | none => simp [searchFilterSpec] at h
  | some d =>
    simp only [searchFilterSpec] at h
    by_cases hd : d.isEmpty
    · rw [if_pos hd] at h; simp at h
    · rw [if_neg hd] at h
      cases hr : resolve_dept_hint depts d with
      | none => rw [hr] at h; exact absurd h (by simp)
      | some g =>
        rw [hr] at h
        have : g = f := by simpa using h
        rw [← this]
        exact resolve_dept_hint_ne_nil depts d g hr

theorem search_ofilt_eq (depts : Tbl) (dep : Option PyStr) :
    (if optTruthy dep then
      if pyIsDigit (pyStrip (dep.getD [])) || pyStrip (dep.getD []) == pystr "2A" ||
          pyStrip (dep.getD []) == pystr "2B" then
        some (some (pyStrip (dep.getD [])))
      else
        match get_departement_code depts (dep.getD []) with
        | some dc => if dc.isEmpty then none else some (some dc)
        | none => none
    else some none) = searchFilterSpec depts dep := by
  cases dep with
  | none => rfl
  | some d =>
    simp only [searchFilterSpec, resolve_dept_hint, optTruthy, Option.getD_some]
    cases hd : d.isEmpty with
    | true => simp [hd]
    | false =>
      simp only [hd, Bool.not_false, if_true, Bool.false_eq_true, if_false]
      by_cases hc : (pyIsDigit (pyStrip d) || pyStrip d == pystr "2A" ||
          pyStrip d == pystr "2B") = true
      · simp [hc]
      · simp only [hc, Bool.false_eq_true, if_false]
        cases hg : get_departement_code depts d with
        | none => simp
        | some dc =>
          by_cases hie : dc.isEmpty
          · simp [hie]
          · simp [hie]

theorem search_inner_eq (rev : Tbl) (filt : Option PyStr)
    (hf : ∀ f, filt = some f → f ≠ []) (l : List (PyStr × PyStr)) :
    l.filterMap (fun cd =>
      if optTruthy filt && !(cd.2 == filt.getD []) then none
      else some (cd.1, ((List.lookup cd.1 rev).getD []), cd.2)) =
    (l.filter (fun cd =>
      match filt with | none => true | some f => cd.2 == f)).map
      (fun cd => (cd.1, ((List.lookup cd.1 rev).getD []), cd.2)) := by
  rw [filterMap_guard_eq_filter_map
    (fun cd => optTruthy filt && !(cd.2 == filt.getD []))
    (fun cd => (cd.1, ((List.lookup cd.1 rev).getD []), cd.2)) l]
  congr 1
  apply List.filter_congr
  intro cd _
  cases filt with
  | none => simp [optTruthy]
  | some f =>
    have hne := hf f rfl
    have hie : f.isEmpty = false := by
      cases f with
      | nil => exact absurd rfl hne
      | cons a t => rfl
    simp [optTruthy, hie]

theorem search_branches_eq (communes : CTbl) (rev : Tbl) (pattern : PyStr)
    (filt : Option PyStr) (hf : ∀ f, filt = some f → f ≠ []) :
    (communes.flatMap (fun e =>
      if isSubOf (pyNorm pattern) e.1 then
        e.2.filterMap (fun cd =>
          if optTruthy filt && !(cd.2 == filt.getD []) then none
          else some (cd.1, ((List.lookup cd.1 rev).getD []), cd.2))
      else [])) =
    (communes.flatMap (fun e =>
      if isSubOf (pyNorm pattern) e.1 then
        (e.2.filter (fun cd =>
          match filt with | none => true | some f => cd.2 == f)).map
          (fun cd => (cd.1, ((List.lookup cd.1 rev).getD []), cd.2))
      else [])) := by
  have hfun : ∀ (e : PyStr × List (PyStr × PyStr)),
      (if isSubOf (pyNorm pattern) e.1 then
        e.2.filterMap (fun cd =>
          if optTruthy filt && !(cd.2 == filt.getD []) then none
          else some (cd.1, ((List.lookup cd.1 rev).getD []), cd.2))
      else []) =
      (if isSubOf (pyNorm pattern) e.1 then
        (e.2.filter (fun cd =>
          match filt with | none => true | some f => cd.2 == f)).map
          (fun cd => (cd.1, ((List.lookup cd.1 rev).getD []), cd.2))
      else []) := by
    intro e
    by_cases hs : isSubOf (pyNorm pattern) e.1 = true
    · rw [if_pos hs, if_pos hs, search_inner_eq rev filt hf e.2]
    · rw [if_neg hs, if_neg hs]
  congr 1
  exact funext hfun

/-- C6: `search_communes` returns exactly the entries whose normalized name
contains the normalized pattern as a substring (pattern inside name only),
optionally filtered to the single resolved département, with results in
index iteration order. -/
theorem C6_search_matches_spec :
    ∀ (communes : CTbl) (rev depts : Tbl) (pattern : PyStr) (dep : Option PyStr),
      search_communes communes rev depts pattern dep =
        searchCommunesSpec communes rev depts pattern dep := by
  intro communes rev depts pattern dep
  simp only [search_communes, searchCommunesSpec, pyNorm_def]
  rw [search_ofilt_eq]
  cases hOF : searchFilterSpec depts dep with
  | none => rfl
  | some filt =>
    exact search_branches_eq communes rev pattern filt
      (fun f hfe => searchFilterSpec_some_some depts dep f (hfe ▸ hOF))

/-- C8: each table is loaded at most once: the first load populates the
cache, and any later call returns the cached tables unchanged regardless of
what the source file then contains — for the region and the commune loader. -/
theorem C8_load_once_cached :
    ∀ (rows rows' : List (PyStr × PyStr)) (crows crows' : List CommuneRow),
      (_load_regions_cached none none rows =
        (_load_regions rows, (some (_load_regions rows).1, some (_load_regions rows).2))) ∧
      ((_load_regions_cached (_load_regions_cached none none rows).2.1
          (_load_regions_cached none none rows).2.2 rows') =
        _load_regions_cached none none rows) ∧
      (∀ a b : Tbl, (_load_regions_cached (some a) (some b) rows').1 = (a, b)) ∧
      (_load_communes_cached none none crows =
        (_load_communes crows, (some (_load_communes crows).1, some (_load_communes crows).2))) ∧
      ((_load_communes_cached (_load_communes_cached none none crows).2.1
          (_load_communes_cached none none crows).2.2 crows') =
        _load_communes_cached none none crows) ∧
      (∀ a : CTbl, ∀ b : Tbl, (_load_communes_cached (some a) (some b) crows').1 = (a, b)) :=
  fun _ _ _ _ =>
    ⟨rfl, rfl, fun _ _ => rfl, rfl, rfl, fun _ _ => rfl⟩

-- ### Dictionary and loader lemmas (C5)

theorem lookup_dictInsert {α : Type} (k k' : PyStr) (v : α) (d : List (PyStr × α)) :
    List.lookup k' (dictInsert k v d) =
      if k' = k then some v else List.lookup k' d := by
  induction d with
  | nil =>
    by_cases h : k' = k
    · subst h
      simp [dictInsert, List.lookup_cons]
    · simp [dictInsert, List.lookup_cons, beq_eq_false_iff_ne.mpr h, h]
  | cons e rest ih =>
    obtain ⟨ek, ev⟩ := e
    by_cases hek : ek = k
    · subst hek
      simp only [dictInsert, beq_self_eq_true, if_true]
      by_cases h : k' = ek
      · subst h
        simp [List.lookup_cons]
      · simp [List.lookup_cons, beq_eq_false_iff_ne.mpr h, h]
    · simp only [dictInsert, beq_eq_false_iff_ne.mpr hek, Bool.false_eq_true, if_false]
      by_cases h : k' = ek
      · subst h
        have hkk : ¬k' = k := hek
        simp [List.lookup_cons, hkk]
      · simp [List.lookup_cons, beq_eq_false_iff_ne.mpr h, ih]

theorem lookup_dictAppend_self (k : PyStr) (p : PyStr × PyStr) (f : CTbl) :
    List.lookup k (dictAppend k p f) =
      some ((List.lookup k f).getD [] ++ [p]) := by
  induction f with
  | nil => simp [dictAppend, List.lookup_cons]
  | cons e rest ih =>
    obtain ⟨ek, ev⟩ := e
    by_cases hek : ek = k
    · subst hek
      simp [dictAppend, List.lookup_cons]
    · have h1 : (ek == k) = false := beq_eq_false_iff_ne.mpr hek
      have h2 : (k == ek) = false := beq_eq_false_iff_ne.mpr (fun h => hek h.symm)
      simp [dictAppend, List.lookup_cons, h1, h2, ih]

theorem lookup_dictAppend_other (k k' : PyStr) (p : PyStr × PyStr) (f : CTbl)
    (h : k' ≠ k) :
    List.lookup k' (dictAppend k p f) = List.lookup k' f := by
  induction f with
  | nil => simp [dictAppend, List.lookup_cons, beq_eq_false_iff_ne.mpr h]
  | cons e rest ih =>
    obtain ⟨ek, ev⟩ := e
    by_cases hek : ek = k
    · subst hek
      simp [dictAppend, List.lookup_cons, beq_eq_false_iff_ne.mpr h]
    · by_cases h2 : k' = ek
      · subst h2
        simp [dictAppend, List.lookup_cons, beq_eq_false_iff_ne.mpr hek]
      · simp [dictAppend, List.lookup_cons, beq_eq_false_iff_ne.mpr hek,
          beq_eq_false_iff_ne.mpr h2, ih]

theorem loadPairs_fwd_lookup (rows : List (PyStr × PyStr)) (acc : Tbl × Tbl) (k : PyStr) :
    List.lookup k (rows.foldl loadStep acc).1 =
      match rows.reverse.find? (fun r => pyLower (pyStrip r.2) == k) with
      | some r => some (pyStrip r.1)
      | none => List.lookup k acc.1 := by
  induction rows using List.reverseRecOn with
  | nil => simp
  | append_singleton rs r ih =>
    rw [List.foldl_append, List.foldl_cons, List.foldl_nil, List.reverse_append]
    simp only [List.reverse_cons, List.reverse_nil, List.nil_append, List.cons_append,
      List.find?_cons]
    show List.lookup k (dictInsert (pyLower (pyStrip r.2)) (pyStrip r.1)
        (rs.foldl loadStep acc).1) = _
    rw [lookup_dictInsert]
    by_cases hk : k = pyLower (pyStrip r.2)
    · have hb : (pyLower (pyStrip r.2) == k) = true := beq_iff_eq.mpr hk.symm
      rw [if_pos hk, hb]
    · have hb : (pyLower (pyStrip r.2) == k) = false :=
        beq_eq_false_iff_ne.mpr (fun h => hk h.symm)
      rw [if_neg hk, hb]
      exact ih

theorem loadPairs_rev_lookup (rows : List (PyStr × PyStr)) (acc : Tbl × Tbl) (k : PyStr) :
    List.lookup k (rows.foldl loadStep acc).2 =
      match rows.reverse.find? (fun r => pyStrip r.1 == k) with
      | some r => some (pyStrip r.2)
      | none => List.lookup k acc.2 := by
  induction rows using List.reverseRecOn with
  | nil => simp
  | append_singleton rs r ih =>
    rw [List.foldl_append, List.foldl_cons, List.foldl_nil, List.reverse_append]
    simp only [List.reverse_cons, List.reverse_nil, List.nil_append, List.cons_append,
      List.find?_cons]
    show List.lookup k (dictInsert (pyStrip r.1) (pyStrip r.2)
        (rs.foldl loadStep acc).2) = _
    rw [lookup_dictInsert]
    by_cases hk : k = pyStrip r.1
    · have hb : (pyStrip r.1 == k) = true := beq_iff_eq.mpr hk.symm
      rw [if_pos hk, hb]
    · have hb : (pyStrip r.1 == k) = false :=
        beq_eq_false_iff_ne.mpr (fun h => hk h.symm)
      rw [if_neg hk, hb]
      exact ih

/-- The dataset property C5 needs for the scalar tables: rows whose names
normalize to the same forward key carry the same (stripped) code. -/
abbrev RowsInj (rows : List (PyStr × PyStr)) : Prop :=
  ∀ r1 ∈ rows, ∀ r2 ∈ rows,
    pyLower (pyStrip r1.2) = pyLower (pyStrip r2.2) → pyStrip r1.1 = pyStrip r2.1

theorem loadPairs_roundtrip (rows : List (PyStr × PyStr)) (hInj : RowsInj rows)
    (c n : PyStr) (hrev : List.lookup c (loadPairs rows).2 = some n) :
    List.lookup (pyStrip (pyLower n)) (loadPairs rows).1 = some c := by
  simp only [loadPairs] at hrev ⊢
  rw [loadPairs_rev_lookup] at hrev
  cases hfind : rows.reverse.find? (fun r => pyStrip r.1 == c) with
  | none =>
    rw [hfind] at hrev
    simp at hrev
  | some r0 =>
    rw [hfind] at hrev
    have hn : pyStrip r0.2 = n := by simpa using hrev
    have hr0c : pyStrip r0.1 = c := by
      have hp := List.find?_some hfind
      simpa using hp
    have hr0mem : r0 ∈ rows := List.mem_reverse.mp (List.mem_of_find?_eq_some hfind)
    have hnorm : pyStrip (pyLower n) = pyLower (pyStrip r0.2) := by
      rw [← hn, pyStrip_pyStrip_eq]
    rw [hnorm, loadPairs_fwd_lookup]
    have hex : ∃ x ∈ rows.reverse,
        (pyLower (pyStrip x.2) == pyLower (pyStrip r0.2)) = true :=
      ⟨r0, List.mem_reverse.mpr hr0mem, beq_self_eq_true _⟩
    obtain ⟨r1, hfind1⟩ :=
      Option.isSome_iff_exists.mp (List.find?_isSome.mpr hex)
    rw [hfind1]
    have hkey1 : pyLower (pyStrip r1.2) = pyLower (pyStrip r0.2) := by
      have hp := List.find?_some hfind1
      simpa using hp
    have hmem1 : r1 ∈ rows := List.mem_reverse.mp (List.mem_of_find?_eq_some hfind1)
    have hcode1 : pyStrip r1.1 = pyStrip r0.1 := hInj r1 hmem1 r0 hr0mem hkey1
    simp [hcode1, hr0c]

theorem communes_rev_stripped (rows : List CommuneRow) :
    ∀ (acc : CTbl × Tbl),
      (∀ c n, List.lookup c acc.2 = some n → pyStrip n = n) →
      ∀ c n, List.lookup c (rows.foldl communeStep acc).2 = some n → pyStrip n = n := by
  induction rows with
  | nil => intro acc hacc; exact hacc
  | cons row rest ih =>
    intro acc hacc c n
    rw [List.foldl_cons]
    refine ih (communeStep acc row) ?_ c n
    intro c' n' h
    simp only [communeStep] at h
    by_cases ht : (row.typecom == pystr "COM") = true
    · rw [if_pos ht] at h
      simp only [Prod.snd] at h
      rw [lookup_dictInsert] at h
      by_cases hc : c' = pyStrip row.com
      · rw [if_pos hc] at h
        have hn : pyStrip row.nccenr = n' := by simpa using h
        rw [← hn, pyStrip_idem]
      · rw [if_neg hc] at h
        exact hacc c' n' h
    · rw [if_neg ht] at h
      exact hacc c' n' h

theorem communes_rev_fwd_link (rows : List CommuneRow) :
    ∀ (acc : CTbl × Tbl),
      (∀ c n, List.lookup c acc.2 = some n →
        ∃ d, (c, d) ∈ (List.lookup (pyLower n) acc.1).getD []) →
      ∀ c n, List.lookup c (rows.foldl communeStep acc).2 = some n →
        ∃ d, (c, d) ∈ (List.lookup (pyLower n) (rows.foldl communeStep acc).1).getD [] := by
  induction rows with
  | nil => intro acc hacc; exact hacc
  | cons row rest ih =>
    intro acc hacc c n
    rw [List.foldl_cons]
    refine ih (communeStep acc row) ?_ c n
    intro c' n' h
    simp only [communeStep] at h ⊢
    by_cases ht : (row.typecom == pystr "COM") = true
    · rw [if_pos ht] at h ⊢
      simp only [Prod.snd] at h
      simp only [Prod.fst]
      rw [lookup_dictInsert] at h
      by_cases hc : c' = pyStrip row.com
      · rw [if_pos hc] at h
        have hn : pyStrip row.nccenr = n' := by simpa using h
        subst hc
        rw [← hn, lookup_dictAppend_self]
        exact ⟨pyStrip row.dep, by simp⟩
      · rw [if_neg hc] at h
        obtain ⟨d, hd⟩ := hacc c' n' h
        by_cases hk : pyLower n' = pyLower (pyStrip row.nccenr)
        · rw [hk, lookup_dictAppend_self]
          refine ⟨d, ?_⟩
          simp only [Option.getD_some]
          exact List.mem_append_left _ (by rw [← hk]; exact hd)
        · rw [lookup_dictAppend_other _ _ _ _ hk]
          exact ⟨d, hd⟩
    · rw [if_neg ht] at h ⊢
      exact hacc c' n' h

/-- C5 (amended): for every code of a loaded table's reverse index,
forward-resolving the stored canonical name yields that same code, provided
normalized names determine codes uniquely in the dataset rows (scalar
tables) and, for communes, provided the canonical name's candidate list is a
singleton — a duplicated name yields the ambiguous `None` instead. -/
theorem C5_roundtrip :
    (∀ (rows : List (PyStr × PyStr)) (c n : PyStr), RowsInj rows →
      List.lookup c (_load_regions rows).2 = some n →
        get_region_code (_load_regions rows).1 n = some c ∧
        get_departement_code (_load_departements rows).1 n = some c ∧
        get_section_code (_load_sections rows).1 n = some c) ∧
    (∀ (rows : List CommuneRow) (depts : Tbl) (c n : PyStr) (cd : PyStr × PyStr),
      List.lookup c (_load_communes rows).2 = some n →
      List.lookup (pyLower n) (_load_communes rows).1 = some [cd] →
        cd.1 = c ∧
        get_commune_code (_load_communes rows).1 depts n none = some c) := by
  constructor
  · intro rows c n hInj hrev
    have hfwd := loadPairs_roundtrip rows hInj c n hrev
    refine ⟨?_, ?_, ?_⟩
    · simp [get_region_code, _load_regions, hfwd]
    · simp [get_departement_code, _load_departements, hfwd]
    · simp [get_section_code, _load_sections, hfwd]
  · intro rows depts c n cd hrev hfwd
    have hbase1 : ∀ c' n',
        List.lookup c' ((([], []) : CTbl × Tbl)).2 = some n' → pyStrip n' = n' := by
      intro c' n' h
      simp at h
    have hstr : pyStrip n = n := communes_rev_stripped rows ([], []) hbase1 c n hrev
    have hbase2 : ∀ c' n',
        List.lookup c' ((([], []) : CTbl × Tbl)).2 = some n' →
        ∃ d, (c', d) ∈ (List.lookup (pyLower n') ((([], []) : CTbl × Tbl)).1).getD [] := by
      intro c' n' h
      simp at h
    obtain ⟨d, hd⟩ := communes_rev_fwd_link rows ([], []) hbase2 c n hrev
    simp only [_load_communes] at hfwd
    rw [hfwd] at hd
    simp only [Option.getD_some, List.mem_singleton] at hd
    have hcd1 : cd.1 = c := by rw [← hd]
    refine ⟨hcd1, ?_⟩
    have hnorm : pyStrip (pyLower n) = pyLower n := by
      rw [← hstr]
      exact pyStrip_pyStrip_eq n
    simp [get_commune_code, _load_communes, hnorm, hfwd, optTruthy, hcd1]

/-- C5 counterexample: two rows sharing a canonical name break the stated
round-trip — for a scalar table the forward key is overwritten by the later
row's code, and for communes resolution returns the ambiguous `None`. -/
theorem C5_roundtrip_counterexample :
    (List.lookup (pystr "01")
        (_load_regions [(pystr "01", pystr "Foo"), (pystr "02", pystr "Foo")]).2 =
      some (pystr "Foo")) ∧
    (get_region_code
        (_load_regions [(pystr "01", pystr "Foo"), (pystr "02", pystr "Foo")]).1
        (pystr "Foo") = some (pystr "02")) ∧
    (List.lookup (pystr "11111")
        (_load_communes
          [⟨pystr "COM", pystr "11111", pystr "Bar", pystr "11"⟩,
            ⟨pystr "COM", pystr "22222", pystr "Bar", pystr "22"⟩]).2 =
      some (pystr "Bar")) ∧
    (get_commune_code
        (_load_communes
          [⟨pystr "COM", pystr "11111", pystr "Bar", pystr "11"⟩,
            ⟨pystr "COM", pystr "22222", pystr "Bar", pystr "22"⟩]).1 []
        (pystr "Bar") none = none) := by
  decide

/-- Witness for the amended C5 on concrete one-row datasets. -/
theorem C5_roundtrip_witness :
    get_region_code (_load_regions [(pystr "84", pystr "Auvergne")]).1
        (pystr "Auvergne") = some (pystr "84") ∧
    get_commune_code
        (_load_communes [⟨pystr "COM", pystr "69123", pystr "Lyon", pystr "69"⟩]).1 []
        (pystr "Lyon") none = some (pystr "69123") :=
  ⟨(C5_roundtrip.1 [(pystr "84", pystr "Auvergne")] (pystr "84") (pystr "Auvergne")
      (by decide) (by decide)).1,
    (C5_roundtrip.2 [⟨pystr "COM", pystr "69123", pystr "Lyon", pystr "69"⟩] []
      (pystr "69123") (pystr "Lyon") (pystr "69123", pystr "69")
      (by decide) (by decide)).2⟩
